import Mathlib

/-!
Verification of the reporting/polling core of the Gophish phishing-awareness
simulator (`src/reporting.py`, `src/main.py`).

The Python dictionaries coming back from the Gophish API are modelled as
structures with `Option String` fields: `none` models a missing key, and
Python truthiness of a string value (`if event.get("email")`) is captured by
`optTruthy` (present and non-empty).  Rates are modelled with exact rational
arithmetic.
-/

namespace PhishSim

/-- One event of a campaign result: `{"type": ..., "email": ..., "time": ...}`.
`none` models an absent key. -/
structure Event where
  type : Option String
  email : Option String
  time : Option String
deriving Repr, DecidableEq

/-- One entry of the campaign's `results` list (one recipient). -/
structure CampaignResult where
  email : Option String
  status : Option String
  events : List Event
deriving Repr, DecidableEq

/-- The campaign payload fields used by the reporting code. -/
structure Campaign where
  name : Option String
  status : Option String
  results : List CampaignResult
deriving Repr, DecidableEq

/-- Python truthiness of an optional string: present and non-empty. -/
def optTruthy : Option String → Bool
  | none => false
  | some s => s ≠ ""

/-- `_unique_ids` from `reporting.py`: the set of emails among events whose
`type` equals `event_type` and whose `email` is truthy.  The Python set is
modelled as a deduplicated list; its cardinality is the list's length. -/
def unique_ids (events : List Event) (event_type : String) : List String :=
  ((events.filter fun e => e.type == some event_type && optTruthy e.email).map
    fun e => e.email.getD "").dedup

/-- `CampaignMetrics` dataclass from `reporting.py`. -/
structure CampaignMetrics where
  total_recipients : ℕ
  opened : ℕ
  clicked : ℕ
  open_rate : ℚ
  click_rate : ℚ
deriving Repr, DecidableEq

/-- All events of a campaign, flattened in per-result order
(`all_events` in `compute_metrics`). -/
def allEvents (campaign : Campaign) : List Event :=
  (campaign.results.map CampaignResult.events).flatten

/-- `compute_metrics` from `reporting.py`. -/
def compute_metrics (campaign : Campaign)
    (unique_opens_only unique_clicks_only : Bool) : CampaignMetrics :=
  let results := campaign.results
  let total_recipients := results.length
  let all_events := allEvents campaign
  let opened_count :=
    if unique_opens_only then
      (unique_ids all_events "Opened Email").length
    else
      (all_events.filter fun e => e.type == some "Opened Email").length
  let clicked_count :=
    if unique_clicks_only then
      (unique_ids all_events "Clicked Link").length
    else
      (all_events.filter fun e => e.type == some "Clicked Link").length
  let open_rate : ℚ :=
    if total_recipients ≠ 0 then (opened_count : ℚ) / total_recipients * 100 else 0
  let click_rate : ℚ :=
    if total_recipients ≠ 0 then (clicked_count : ℚ) / total_recipients * 100 else 0
  { total_recipients := total_recipients
    opened := opened_count
    clicked := clicked_count
    open_rate := open_rate
    click_rate := click_rate }

/-! Spec-side counting policies, written from the specification's words
(§4.1 step 3): "count the number of distinct non-empty email addresses among
events of type ...; else count raw occurrences of that event type". -/

/-- Spec's unique count: the number of distinct non-empty email addresses
among events of the given type (missing or empty email excluded). -/
def specUniqueCount (events : List Event) (event_type : String) : ℕ :=
  (((events.filter fun e =>
      e.type = some event_type ∧ e.email ≠ none ∧ e.email ≠ some "").map
    fun e => e.email.getD "").dedup).length

/-- Spec's raw count: the number of occurrences of events of the given type,
duplicates included. -/
def specRawCount (events : List Event) (event_type : String) : ℕ :=
  (events.filter fun e => e.type = some event_type).length

/-- The concrete campaign of the spec's example:
`[{events:[{type:"Opened Email", email:"a@x"},{type:"Opened Email", email:"a@x"}]}]`. -/
def exampleCampaign : Campaign :=
  { name := none, status := none,
    results := [{ email := none, status := none,
                  events := [⟨some "Opened Email", some "a@x", none⟩,
                             ⟨some "Opened Email", some "a@x", none⟩] }] }

/-- A campaign with one recipient whose result holds two "Opened Email"
events: in raw mode the opened count is 2 while there is 1 recipient, so
`open_rate = 200`. -/
def rateCounterexample : Campaign :=
  { name := none, status := none,
    results := [{ email := none, status := none,
                  events := [⟨some "Opened Email", none, none⟩,
                             ⟨some "Opened Email", none, none⟩] }] }

/-- One per-recipient CSV row as built by `build_recipient_rows`. -/
structure RecipientRow where
  campaign_name : String
  campaign_status : String
  recipient_email : String
  recipient_status : String
  open_count : ℕ
  click_count : ℕ
  first_open_time : String
  first_click_time : String
  last_event_type : String
  last_event_time : String
deriving Repr, DecidableEq

/-- `_extract_event_times` from `reporting.py`: timestamps of events of the
given type whose `time` is truthy, in order. -/
def extract_event_times (events : List Event) (event_type : String) : List String :=
  (events.filter fun e => e.type == some event_type && optTruthy e.time).map
    fun e => e.time.getD ""

/-- `build_recipient_rows` from `reporting.py`. -/
def build_recipient_rows (c : Campaign) : List RecipientRow :=
  c.results.map fun result =>
    let events := result.events
    let opened_times := extract_event_times events "Opened Email"
    let clicked_times := extract_event_times events "Clicked Link"
    let first_open := opened_times.headD ""
    let first_click := clicked_times.headD ""
    let last_event := events.getLast?
    { campaign_name := c.name.getD "<unknown>"
      campaign_status := c.status.getD "<unknown>"
      recipient_email := result.email.getD ""
      recipient_status := result.status.getD ""
      open_count := opened_times.length
      click_count := clicked_times.length
      first_open_time := first_open
      first_click_time := first_click
      last_event_type := (last_event.map fun e => e.type.getD "").getD ""
      last_event_time := (last_event.map fun e => e.time.getD "").getD "" }

/-- Spec-side list of timestamps (§4.1): "extract ordered timestamps of
'Opened Email' and 'Clicked Link' events (skipping events lacking a time
value)" — a missing or empty time is lacking. -/
def specEventTimes (events : List Event) (event_type : String) : List String :=
  (events.filter fun e =>
    e.type = some event_type ∧ e.time ≠ none ∧ e.time ≠ some "").map
    fun e => e.time.getD ""

/-- Spec-side per-recipient row (§4.1): first element of each filtered
timestamp list or empty string, last event's type/time from the full
unfiltered sequence or empty, and counts as the filtered lists' lengths. -/
def specRecipientRow (cname cstatus : Option String)
    (result : CampaignResult) : RecipientRow :=
  { campaign_name := cname.getD "<unknown>"
    campaign_status := cstatus.getD "<unknown>"
    recipient_email := result.email.getD ""
    recipient_status := result.status.getD ""
    open_count := (specEventTimes result.events "Opened Email").length
    click_count := (specEventTimes result.events "Clicked Link").length
    first_open_time := (specEventTimes result.events "Opened Email").headD ""
    first_click_time := (specEventTimes result.events "Clicked Link").headD ""
    last_event_type :=
      match result.events.getLast? with
      | some e => e.type.getD ""
      | none => ""
    last_event_time :=
      match result.events.getLast? with
      | some e => e.time.getD ""
      | none => "" }

/-- A campaign with one recipient whose result has no events at all. -/
def noEventsCampaign : Campaign :=
  { name := some "C", status := some "In progress",
    results := [{ email := some "r@x", status := some "Sent", events := [] }] }

/-- Outcome of the report-only polling loop of `run` in `main.py`.
`done n s` models `return 0` after `n` completed fetch/report/export cycles
and `s` sleeps; `fetchError n s` models `return 1` from a failed fetch after
`n` completed cycles and `s` sleeps (the failing fetch performs no report,
export or sleep); `outOfFuel` marks an execution longer than the modelling
fuel. -/
inductive PollOutcome where
  | done (cycles sleeps : ℕ)
  | fetchError (cyclesBefore sleeps : ℕ)
  | outOfFuel (cycles sleeps : ℕ)
deriving Repr, DecidableEq

/-- Process exit code of a finished polling loop (`none` if fuel ran out). -/
def PollOutcome.exitCode : PollOutcome → Option ℤ
  | .done _ _ => some 0
  | .fetchError _ _ => some 1
  | .outOfFuel _ _ => none

/-- The body of the `while True` polling loop of `run` in `main.py`,
one fuel unit per iteration.  `fetch i` is the result of the `i`-th
`get_campaign` call (`none` models a `GophishError`); `interval` is the
clamped `poll_interval`; `remaining` is `remaining_polls`; `i` counts
completed cycles and `s` counts sleeps so far.  Each successful fetch is
followed by the report (and CSV export when configured) before the loop
decides whether to stop; the sleep comes last, so the first fetch is
immediate and no sleep follows a terminal cycle. -/
def pollAux (fetch : ℕ → Option Campaign) (interval : ℕ) (remaining : ℤ)
    (i s fuel : ℕ) : PollOutcome :=
  match fuel with
  | 0 => .outOfFuel i s
  | fuel + 1 =>
    match fetch i with
    | none => .fetchError i s
    | some campaign =>
      if interval = 0 then .done (i + 1) s
      else if remaining = 0 then
        if campaign.status = some "Completed" then .done (i + 1) s
        else pollAux fetch interval 0 (i + 1) (s + 1) fuel
      else if remaining - 1 ≤ 0 then .done (i + 1) s
      else pollAux fetch interval (remaining - 1) (i + 1) (s + 1) fuel

/-- The report-only polling entry of `run` in `main.py`:
`poll_interval = max(args.poll_interval, 0)` and
`remaining_polls = args.poll_count if poll_interval else 1`. -/
def runPoller (fetch : ℕ → Option Campaign) (pollIntervalArg pollCount : ℤ)
    (fuel : ℕ) : PollOutcome :=
  let interval := (max pollIntervalArg 0).toNat
  let remaining : ℤ := if interval ≠ 0 then pollCount else 1
  pollAux fetch interval remaining 0 0 fuel

/-- A fetched campaign that is still running. -/
def inProgressCampaign : Campaign :=
  { name := some "C", status := some "In progress", results := [] }

/-- A fetched campaign whose status is the literal string "Completed". -/
def completedCampaign : Campaign :=
  { name := some "C", status := some "Completed", results := [] }

/-! ### CSV export (`export_csv` in `reporting.py`)

`csv.DictWriter` with the default excel dialect: delimiter `,`, quote
character `"`, QUOTE_MINIMAL (a cell is quoted iff it contains the
delimiter, the quote character, or a line-terminator character, with inner
quotes doubled), records terminated by CRLF.  The file content is modelled
as a `List Char`; `open(path, "w")` truncates, so the content written is a
function of the rows alone.  The reader below models `csv.reader` on the
same dialect (its blank-line special case cannot arise here because every
record has ten cells). -/

/-- Characters forcing a cell to be quoted under QUOTE_MINIMAL. -/
def csvSpecial (c : Char) : Bool :=
  c = ',' || c = '"' || c = '\r' || c = '\n'

/-- QUOTE_MINIMAL: quote exactly when a special character occurs. -/
def needsQuote (s : List Char) : Bool :=
  s.any csvSpecial

/-- Double every quote character (excel `doublequote = True`). -/
def escapeQuotes : List Char → List Char
  | [] => []
  | c :: cs => if c = '"' then '"' :: '"' :: escapeQuotes cs else c :: escapeQuotes cs

/-- Serialize one cell. -/
def encodeField (s : List Char) : List Char :=
  if needsQuote s then '"' :: (escapeQuotes s ++ ['"']) else s

/-- Serialize one record: cells joined by the delimiter. -/
def encodeRecord : List (List Char) → List Char
  | [] => []
  | [f] => encodeField f
  | f :: f2 :: fs => encodeField f ++ ',' :: encodeRecord (f2 :: fs)

/-- Serialize a whole CSV file: each record followed by CRLF. -/
def encodeCsv (records : List (List (List Char))) : List Char :=
  (records.map fun r => encodeRecord r ++ ['\r', '\n']).flatten

/-- The fixed column order (`fieldnames` in `export_csv`). -/
def csvFieldnames : List String :=
  ["campaign_name", "campaign_status", "recipient_email", "recipient_status",
   "open_count", "click_count", "first_open_time", "first_click_time",
   "last_event_type", "last_event_time"]

/-- The string cells of one recipient row in the fixed column order
(`csv.DictWriter` stringifies the integer counts). -/
def rowCells (r : RecipientRow) : List String :=
  [r.campaign_name, r.campaign_status, r.recipient_email, r.recipient_status,
   toString r.open_count, toString r.click_count, r.first_open_time,
   r.first_click_time, r.last_event_type, r.last_event_time]

/-- `export_csv` from `reporting.py`: the full file content produced for the
given rows — a header record (written even for zero rows) followed by one
record per row, each with the ten cells in the fixed order. -/
def export_csv (rows : List RecipientRow) : List Char :=
  encodeCsv ((csvFieldnames :: rows.map rowCells).map fun r => r.map String.toList)

/-- A character at which an unquoted cell ends. -/
def stopChar (c : Char) : Bool :=
  c = ',' || c = '\r' || c = '\n'

/-- Read the body of a quoted cell; a doubled quote is a literal quote and a
single quote closes the cell. -/
def parseQuoted : List Char → List Char → List Char × List Char
  | acc, [] => (acc.reverse, [])
  | acc, [c] => if c = '"' then (acc.reverse, []) else parseQuoted (c :: acc) []
  | acc, c :: c2 :: cs =>
    if c = '"' then
      if c2 = '"' then parseQuoted ('"' :: acc) cs
      else (acc.reverse, c2 :: cs)
    else parseQuoted (c :: acc) (c2 :: cs)

/-- Read an unquoted cell up to a delimiter or line terminator. -/
def parseUnquoted : List Char → List Char → List Char × List Char
  | acc, [] => (acc.reverse, [])
  | acc, c :: cs =>
    if stopChar c then (acc.reverse, c :: cs)
    else parseUnquoted (c :: acc) cs

/-- Read one cell: quoted iff it starts with the quote character. -/
def parseField : List Char → List Char × List Char
  | [] => ([], [])
  | c :: cs => if c = '"' then parseQuoted [] cs else parseUnquoted [] (c :: cs)

/-- Read one record: cells separated by delimiters, ended by CRLF (or by the
end of input); one fuel unit per cell. -/
def parseRecordAux : ℕ → List Char → List (List Char) × List Char
  | 0, cs => ([], cs)
  | fuel + 1, cs =>
    match parseField cs with
    | (f, ',' :: rest2) =>
      let q := parseRecordAux fuel rest2
      (f :: q.1, q.2)
    | (f, '\r' :: '\n' :: rest2) => ([f], rest2)
    | (f, rest) => ([f], rest)

/-- Read a whole CSV file; one fuel unit per record. -/
def parseCsvAux : ℕ → List Char → List (List (List Char))
  | 0, _ => []
  | fuel + 1, cs =>
    if cs = [] then []
    else
      match parseRecordAux cs.length cs with
      | (r, rest) => r :: parseCsvAux fuel rest

/-- Read a whole CSV file (the input length bounds the record count). -/
def parseCsv (cs : List Char) : List (List (List Char)) :=
  parseCsvAux cs.length cs

/-! ### CLI safety gate (`_enforce_safety` and `run` in `main.py`) -/

/-- The CLI arguments relevant to the safety gate and mode selection. -/
structure Args where
  dry_run : Bool
  report_only : Bool
  campaign_id : Option ℤ
  confirm : String
deriving Repr, DecidableEq

/-- The configuration fields consulted by the safety gate. -/
structure AppConfig where
  allow_live_send : Bool
  dry_run : Bool
deriving Repr, DecidableEq

/-- `CONFIRM_PHRASE` from `main.py`. -/
def CONFIRM_PHRASE : String := "I-UNDERSTAND-THIS-IS-AWARENESS"

/-- `_enforce_safety` from `main.py`: report-only and dry-run runs pass; a
live send requires `allow_live_send` and the exact confirmation phrase. -/
def enforce_safety (config : AppConfig) (args : Args) : Except String Unit :=
  if args.report_only then .ok ()
  else if args.dry_run || config.dry_run then .ok ()
  else if !config.allow_live_send then
    .error "allow_live_send is false. Refusing to send awareness emails."
  else if args.confirm ≠ CONFIRM_PHRASE then
    .error "Missing --confirm phrase."
  else .ok ()

/-- Python truthiness of `args.campaign_id` (`None` and `0` are falsy). -/
def idTruthy : Option ℤ → Bool
  | none => false
  | some n => n ≠ 0

/-- The terminal action of the CLI flow of `run` after the config loads:
which branch ends the process (each constructor is a distinct `return` site
or effectful call in `main.py`). -/
inductive CliAction where
  | safetyFail
  | reportOnlyMissingId
  | reportOnlyPoll
  | resolveFail
  | dryRunPlan
  | createCampaign
deriving Repr, DecidableEq

/-- The branch structure of `run` in `main.py` after `load_config`:
safety gate, then report-only mode, then payload resolution (`payloadOk`
abstracts whether `_build_campaign_payload` succeeds), then the dry-run
plan, and only past all of those `client.create_campaign`. -/
def cliFlow (config : AppConfig) (args : Args) (payloadOk : Bool) : CliAction :=
  match enforce_safety config args with
  | .error _ => .safetyFail
  | .ok _ =>
    if args.report_only then
      if idTruthy args.campaign_id then .reportOnlyPoll
      else .reportOnlyMissingId
    else if !payloadOk then .resolveFail
    else if args.dry_run || config.dry_run then .dryRunPlan
    else .createCampaign

end PhishSim

namespace PhishSim

theorem optTruthy_eq_decide (o : Option String) :
    optTruthy o = decide (o ≠ none ∧ o ≠ some "") := by
  cases o with
  | none => simp [optTruthy]
  | some s => by_cases hs : s = "" <;> simp [optTruthy, hs]

theorem compute_metrics_total (c : Campaign) (uo uc : Bool) :
    (compute_metrics c uo uc).total_recipients = c.results.length := rfl

theorem compute_metrics_open_rate (c : Campaign) (uo uc : Bool) :
    (compute_metrics c uo uc).open_rate =
      if c.results.length = 0 then 0
      else ((compute_metrics c uo uc).opened : ℚ) / c.results.length * 100 := by
  by_cases h : c.results.length = 0 <;> simp [compute_metrics, h]

theorem compute_metrics_click_rate (c : Campaign) (uo uc : Bool) :
    (compute_metrics c uo uc).click_rate =
      if c.results.length = 0 then 0
      else ((compute_metrics c uo uc).clicked : ℚ) / c.results.length * 100 := by
  by_cases h : c.results.length = 0 <;> simp [compute_metrics, h]

theorem unique_ids_eq_spec (events : List Event) (t : String) :
    (unique_ids events t).length = specUniqueCount events t := by
  unfold unique_ids specUniqueCount
  have h : (List.filter (fun e => e.type == some t && optTruthy e.email) events) =
      (List.filter (fun e =>
        decide (e.type = some t ∧ e.email ≠ none ∧ e.email ≠ some "")) events) := by
    apply List.filter_congr
    intro e _
    cases he : e.email with
    | none => simp [optTruthy, he]
    | some s => by_cases hs : s = "" <;> simp [optTruthy, he, hs, Bool.beq_eq_decide_eq]
  rw [h]

theorem raw_count_eq_spec (events : List Event) (t : String) :
    (events.filter fun e => e.type == some t).length = specRawCount events t := by
  unfold specRawCount
  have h : (List.filter (fun e => e.type == some t) events) =
      (List.filter (fun e => decide (e.type = some t)) events) := by
    apply List.filter_congr
    intro e _
    simp [Bool.beq_eq_decide_eq]
  rw [h]

/-- C1: `compute_metrics` counts `opened` as the number of distinct non-empty
emails among "Opened Email" events when `unique_opens_only` is true, and as
the raw occurrence count when it is false; likewise `clicked` with
"Clicked Link" and `unique_clicks_only`; on the spec's example campaign the
opened count is 1 in unique mode and 2 in raw mode. -/
theorem C1_opened_clicked_counting (campaign : Campaign) (uo uc : Bool) :
    (compute_metrics campaign uo uc).opened =
      (if uo then specUniqueCount (allEvents campaign) "Opened Email"
       else specRawCount (allEvents campaign) "Opened Email") ∧
    (compute_metrics campaign uo uc).clicked =
      (if uc then specUniqueCount (allEvents campaign) "Clicked Link"
       else specRawCount (allEvents campaign) "Clicked Link") ∧
    (compute_metrics exampleCampaign true uc).opened = 1 ∧
    (compute_metrics exampleCampaign false uc).opened = 2 := by
  refine ⟨?_, ?_, ?_, ?_⟩
  · cases uo <;>
      simp [compute_metrics, unique_ids_eq_spec, raw_count_eq_spec]
  · cases uc <;>
      simp [compute_metrics, unique_ids_eq_spec, raw_count_eq_spec]
  · cases uc <;> decide
  · cases uc <;> decide

/-- C2: `total_recipients` is the number of result entries, and each rate is
the count divided by `total_recipients` times 100, with both rates exactly 0
when `total_recipients = 0` (the division is never taken in that case). -/
theorem C2_totals_and_rates (c : Campaign) (uo uc : Bool) :
    (compute_metrics c uo uc).total_recipients = c.results.length ∧
    (compute_metrics c uo uc).open_rate =
      (if (compute_metrics c uo uc).total_recipients = 0 then 0
       else ((compute_metrics c uo uc).opened : ℚ) /
         (compute_metrics c uo uc).total_recipients * 100) ∧
    (compute_metrics c uo uc).click_rate =
      (if (compute_metrics c uo uc).total_recipients = 0 then 0
       else ((compute_metrics c uo uc).clicked : ℚ) /
         (compute_metrics c uo uc).total_recipients * 100) := by
  refine ⟨compute_metrics_total c uo uc, ?_, ?_⟩
  · rw [compute_metrics_open_rate c uo uc, compute_metrics_total c uo uc]
  · rw [compute_metrics_click_rate c uo uc, compute_metrics_total c uo uc]

/-- C3 counterexample: a campaign with one recipient and two raw
"Opened Email" events has `total_recipients = 1 > 0` but `open_rate = 200`,
outside `[0, 100]`. -/
theorem C3_counterexample :
    0 < (compute_metrics rateCounterexample false false).total_recipients ∧
    ¬ (compute_metrics rateCounterexample false false).open_rate ≤ 100 := by
  constructor
  · decide
  · have h : (compute_metrics rateCounterexample false false).open_rate = 200 := by
      rw [compute_metrics_open_rate]
      norm_num [compute_metrics, rateCounterexample, allEvents]
    rw [h]
    norm_num

/-- C3 amended: when `total_recipients > 0` both rates are nonnegative, and
`open_rate` (resp. `click_rate`) is at most 100 whenever the opened
(resp. clicked) count does not exceed `total_recipients`; the original bound
fails when a count exceeds the number of recipients. -/
theorem C3_rates_amended (c : Campaign) (uo uc : Bool)
    (h : 0 < (compute_metrics c uo uc).total_recipients) :
    0 ≤ (compute_metrics c uo uc).open_rate ∧
    0 ≤ (compute_metrics c uo uc).click_rate ∧
    ((compute_metrics c uo uc).opened ≤ (compute_metrics c uo uc).total_recipients →
      (compute_metrics c uo uc).open_rate ≤ 100) ∧
    ((compute_metrics c uo uc).clicked ≤ (compute_metrics c uo uc).total_recipients →
      (compute_metrics c uo uc).click_rate ≤ 100) := by
  rw [compute_metrics_total] at h
  have hne : c.results.length ≠ 0 := Nat.pos_iff_ne_zero.mp h
  have hq : (0 : ℚ) < (c.results.length : ℚ) := by exact_mod_cast h
  refine ⟨?_, ?_, ?_, ?_⟩
  · rw [compute_metrics_open_rate c uo uc]
    simp only [hne, if_false]
    positivity
  · rw [compute_metrics_click_rate c uo uc]
    simp only [hne, if_false]
    positivity
  · intro hle
    rw [compute_metrics_total] at hle
    rw [compute_metrics_open_rate c uo uc]
    simp only [hne, if_false]
    have hle' : ((compute_metrics c uo uc).opened : ℚ) ≤ (c.results.length : ℚ) := by
      exact_mod_cast hle
    calc ((compute_metrics c uo uc).opened : ℚ) / c.results.length * 100
        ≤ 1 * 100 := by
          apply mul_le_mul_of_nonneg_right _ (by norm_num)
          exact (div_le_one hq).mpr hle'
      _ = 100 := by norm_num
  · intro hle
    rw [compute_metrics_total] at hle
    rw [compute_metrics_click_rate c uo uc]
    simp only [hne, if_false]
    have hle' : ((compute_metrics c uo uc).clicked : ℚ) ≤ (c.results.length : ℚ) := by
      exact_mod_cast hle
    calc ((compute_metrics c uo uc).clicked : ℚ) / c.results.length * 100
        ≤ 1 * 100 := by
          apply mul_le_mul_of_nonneg_right _ (by norm_num)
          exact (div_le_one hq).mpr hle'
      _ = 100 := by norm_num

/-- Witness for `C3_rates_amended` at the spec's example campaign in unique
mode (1 recipient, opened = clicked ≤ 1). -/
theorem C3_rates_amended_witness :
    (0 : ℚ) ≤ (compute_metrics exampleCampaign true true).open_rate ∧
    (compute_metrics exampleCampaign true true).open_rate ≤ 100 := by
  have h := C3_rates_amended exampleCampaign true true (by decide)
  exact ⟨h.1, h.2.2.1 (by decide)⟩

theorem unique_le_filter_type (events : List Event) (t : String) :
    (unique_ids events t).length ≤
      (events.filter fun e => e.type == some t).length := by
  unfold unique_ids
  calc ((events.filter fun e => e.type == some t && optTruthy e.email).map
          fun e => e.email.getD "").dedup.length
      ≤ ((events.filter fun e => e.type == some t && optTruthy e.email).map
          fun e => e.email.getD "").length :=
        (List.dedup_sublist _).length_le
    _ = (events.filter fun e => e.type == some t && optTruthy e.email).length :=
        List.length_map _ _
    _ = ((events.filter fun e => e.type == some t).filter
          fun e => optTruthy e.email).length := by
        rw [List.filter_filter]
        congr 1
        apply List.filter_congr
        intro e _
        exact Bool.and_comm _ _
    _ ≤ (events.filter fun e => e.type == some t).length :=
        List.length_filter_le _ _

/-- C4: for a fixed campaign, the unique-mode opened (clicked) count is at
most the raw-mode count, and every count is at most the total number of
events of its type. -/
theorem C4_unique_le_raw (c : Campaign) (uo uc : Bool) :
    (compute_metrics c true uc).opened ≤ (compute_metrics c false uc).opened ∧
    (compute_metrics c uo true).clicked ≤ (compute_metrics c uo false).clicked ∧
    (compute_metrics c uo uc).opened ≤ specRawCount (allEvents c) "Opened Email" ∧
    (compute_metrics c uo uc).clicked ≤ specRawCount (allEvents c) "Clicked Link" := by
  have hop : (compute_metrics c false uc).opened =
      ((allEvents c).filter fun e => e.type == some "Opened Email").length := rfl
  have hcl : (compute_metrics c uo false).clicked =
      ((allEvents c).filter fun e => e.type == some "Clicked Link").length := rfl
  refine ⟨?_, ?_, ?_, ?_⟩
  · rw [hop]
    exact unique_le_filter_type (allEvents c) "Opened Email"
  · rw [hcl]
    exact unique_le_filter_type (allEvents c) "Clicked Link"
  · rw [← raw_count_eq_spec]
    cases uo
    · exact le_refl _
    · exact unique_le_filter_type (allEvents c) "Opened Email"
  · rw [← raw_count_eq_spec]
    cases uc
    · exact le_refl _
    · exact unique_le_filter_type (allEvents c) "Clicked Link"

theorem extract_event_times_eq_spec (events : List Event) (t : String) :
    extract_event_times events t = specEventTimes events t := by
  unfold extract_event_times specEventTimes
  congr 1
  apply List.filter_congr
  intro e _
  rw [optTruthy_eq_decide]
  cases e.time <;> simp [Bool.beq_eq_decide_eq]

/-- C5: each row built by `build_recipient_rows` takes its first open/click
times from the head of the filtered timestamp lists (empty string if none),
its last event type/time from the last element of the full unfiltered event
sequence (empty if no events), and its counts from the filtered lists'
lengths; a result with no events yields empty strings for all four
timestamp/type fields and zero counts. -/
theorem C5_recipient_rows (c : Campaign) :
    build_recipient_rows c = c.results.map (specRecipientRow c.name c.status) ∧
    build_recipient_rows noEventsCampaign =
      [{ campaign_name := "C", campaign_status := "In progress",
         recipient_email := "r@x", recipient_status := "Sent",
         open_count := 0, click_count := 0,
         first_open_time := "", first_click_time := "",
         last_event_type := "", last_event_time := "" }] := by
  constructor
  · unfold build_recipient_rows
    apply List.map_congr_left
    intro result _
    unfold specRecipientRow
    simp only [extract_event_times_eq_spec]
    cases hlast : result.events.getLast? <;> simp [hlast]
  · decide

theorem pollAux_fixed (fetch : ℕ → Option Campaign) (interval : ℕ)
    (hint : interval ≠ 0) (hf : ∀ j, (fetch j).isSome) :
    ∀ (k i s fuel : ℕ), 0 < k → k ≤ fuel →
      pollAux fetch interval (k : ℤ) i s fuel = .done (i + k) (s + k - 1) := by
  intro k
  induction k with
  | zero => intro i s fuel h _; exact absurd h (by omega)
  | succ k ih =>
    intro i s fuel _ hfuel
    obtain ⟨fuel', rfl⟩ : ∃ f, fuel = f + 1 := ⟨fuel - 1, by omega⟩
    obtain ⟨c, hc⟩ := Option.isSome_iff_exists.mp (hf i)
    have h0 : ¬ (((k + 1 : ℕ) : ℤ) = 0) := by push_cast; omega
    simp only [pollAux, hc]
    rw [if_neg hint, if_neg h0]
    by_cases hk : k = 0
    · subst hk
      rw [if_pos (by norm_num)]
      norm_num
    · have hk1 : 0 < k := Nat.pos_of_ne_zero hk
      rw [if_neg (by push_cast; omega)]
      have harg : ((k + 1 : ℕ) : ℤ) - 1 = ((k : ℕ) : ℤ) := by push_cast; ring
      rw [harg, ih (i + 1) (s + 1) fuel' hk1 (by omega)]
      congr 1 <;> omega

theorem pollAux_until (fetch : ℕ → Option Campaign) (cs : ℕ → Campaign)
    (interval : ℕ) (hint : interval ≠ 0) (hf : ∀ j, fetch j = some (cs j)) :
    ∀ (k i s fuel : ℕ),
      (∀ j, j < k → (cs (i + j)).status ≠ some "Completed") →
      (cs (i + k)).status = some "Completed" →
      k + 1 ≤ fuel →
      pollAux fetch interval 0 i s fuel = .done (i + k + 1) (s + k) := by
  intro k
  induction k with
  | zero =>
    intro i s fuel _ hdone hfuel
    obtain ⟨fuel', rfl⟩ : ∃ f, fuel = f + 1 := ⟨fuel - 1, by omega⟩
    have hdone' : (cs i).status = some "Completed" := by simpa using hdone
    simp only [pollAux, hf i]
    rw [if_neg hint, if_pos trivial, if_pos hdone']
    norm_num
  | succ k ih =>
    intro i s fuel hlt hdone hfuel
    obtain ⟨fuel', rfl⟩ : ∃ f, fuel = f + 1 := ⟨fuel - 1, by omega⟩
    have hnot : ¬ ((cs i).status = some "Completed") := by
      have := hlt 0 (by omega)
      simpa using this
    simp only [pollAux, hf i]
    rw [if_neg hint, if_pos trivial, if_neg hnot]
    have hlt' : ∀ j, j < k → (cs (i + 1 + j)).status ≠ some "Completed" := by
      intro j hj
      have h := hlt (j + 1) (by omega)
      have heq : i + (j + 1) = i + 1 + j := by omega
      rwa [heq] at h
    have hdone' : (cs (i + 1 + k)).status = some "Completed" := by
      have heq : i + (k + 1) = i + 1 + k := by omega
      rwa [heq] at hdone
    rw [ih (i + 1) (s + 1) fuel' hlt' hdone' (by omega)]
    congr 1 <;> omega

theorem pollAux_fail_reach (fetch : ℕ → Option Campaign) (cs : ℕ → Campaign)
    (interval : ℕ) (hint : interval ≠ 0) :
    ∀ (k i s fuel : ℕ),
      (∀ j, j < k → fetch (i + j) = some (cs (i + j))) →
      (∀ j, j < k → (cs (i + j)).status ≠ some "Completed") →
      fetch (i + k) = none →
      k + 1 ≤ fuel →
      pollAux fetch interval 0 i s fuel = .fetchError (i + k) (s + k) := by
  intro k
  induction k with
  | zero =>
    intro i s fuel _ _ hfail hfuel
    obtain ⟨fuel', rfl⟩ : ∃ f, fuel = f + 1 := ⟨fuel - 1, by omega⟩
    have hfail' : fetch i = none := by simpa using hfail
    simp [pollAux, hfail']
  | succ k ih =>
    intro i s fuel hok hlt hfail hfuel
    obtain ⟨fuel', rfl⟩ : ∃ f, fuel = f + 1 := ⟨fuel - 1, by omega⟩
    have hoki : fetch i = some (cs i) := by
      have := hok 0 (by omega)
      simpa using this
    have hnot : ¬ ((cs i).status = some "Completed") := by
      have := hlt 0 (by omega)
      simpa using this
    simp only [pollAux, hoki]
    rw [if_neg hint, if_pos trivial, if_neg hnot]
    have hok' : ∀ j, j < k → fetch (i + 1 + j) = some (cs (i + 1 + j)) := by
      intro j hj
      have h := hok (j + 1) (by omega)
      have heq : i + (j + 1) = i + 1 + j := by omega
      rwa [heq] at h
    have hlt' : ∀ j, j < k → (cs (i + 1 + j)).status ≠ some "Completed" := by
      intro j hj
      have h := hlt (j + 1) (by omega)
      have heq : i + (j + 1) = i + 1 + j := by omega
      rwa [heq] at h
    have hfail' : fetch (i + 1 + k) = none := by
      have heq : i + (k + 1) = i + 1 + k := by omega
      rwa [heq] at hfail
    rw [ih (i + 1) (s + 1) fuel' hok' hlt' hfail' (by omega)]
    congr 1 <;> omega

theorem runPoller_interval_toNat_ne (intervalArg : ℤ) (h : 0 < intervalArg) :
    (max intervalArg 0).toNat ≠ 0 := by
  have : max intervalArg 0 = intervalArg := max_eq_left (le_of_lt h)
  rw [this]
  omega

/-- C6: the polling loop performs a deterministic number of cycles: with
`poll_interval = 0` exactly one fetch/report/export cycle and no sleep,
whatever `poll_count` is; with `poll_interval > 0` and `poll_count = k > 0`
exactly `k` cycles with `k - 1` sleeps, the sleep coming after each
non-terminal cycle only (the first fetch is immediate and no sleep follows
the final cycle). -/
theorem C6_poller_cycle_count (fetch : ℕ → Option Campaign)
    (count intervalArg : ℤ) (k fuel : ℕ) :
    ((fetch 0).isSome → 0 < fuel →
      runPoller fetch 0 count fuel = .done 1 0) ∧
    (0 < intervalArg → 0 < k → (∀ j, (fetch j).isSome) → k ≤ fuel →
      runPoller fetch intervalArg (k : ℤ) fuel = .done k (k - 1)) := by
  constructor
  · intro hsome hfuel
    obtain ⟨fuel', rfl⟩ : ∃ f, fuel = f + 1 := ⟨fuel - 1, by omega⟩
    obtain ⟨c, hc⟩ := Option.isSome_iff_exists.mp hsome
    simp [runPoller, pollAux, hc]
  · intro hpos hk hf hfuel
    have hne := runPoller_interval_toNat_ne intervalArg hpos
    unfold runPoller
    simp only [if_pos hne, ne_eq, hne, not_false_iff, if_true]
    have h := pollAux_fixed fetch (max intervalArg 0).toNat hne hf k 0 0 fuel hk hfuel
    simpa using h

/-- Witness for `C6_poller_cycle_count`: a constant successful fetch stream;
with `poll_interval = 0`, `poll_count = 7` the loop does one cycle, and with
`poll_interval = 5`, `poll_count = 3` it does three cycles and two sleeps. -/
theorem C6_poller_cycle_count_witness :
    runPoller (fun _ => some inProgressCampaign) 0 7 3 = .done 1 0 ∧
    runPoller (fun _ => some inProgressCampaign) 5 ((3 : ℕ) : ℤ) 3 = .done 3 2 :=
  ⟨(C6_poller_cycle_count (fun _ => some inProgressCampaign) 7 5 3 3).1
      (by decide) (by decide),
   (C6_poller_cycle_count (fun _ => some inProgressCampaign) 7 5 3 3).2
      (by decide) (by decide) (fun _ => rfl) (by decide)⟩

/-- C7: with `poll_interval > 0` and `poll_count = 0`, the loop stops exactly
at the first fetched campaign whose `status` is the literal "Completed":
if the first `k` fetches are not "Completed" and fetch `k` is, the loop does
exactly `k + 1` cycles (so it never stops before a "Completed" fetch) with a
sleep between consecutive attempts. -/
theorem C7_poll_until_completed (fetch : ℕ → Option Campaign)
    (cs : ℕ → Campaign) (intervalArg : ℤ) (k fuel : ℕ)
    (hpos : 0 < intervalArg)
    (hf : ∀ j, fetch j = some (cs j))
    (hlt : ∀ j, j < k → (cs j).status ≠ some "Completed")
    (hdone : (cs k).status = some "Completed")
    (hfuel : k + 1 ≤ fuel) :
    runPoller fetch intervalArg 0 fuel = .done (k + 1) k := by
  have hne := runPoller_interval_toNat_ne intervalArg hpos
  unfold runPoller
  simp only [ne_eq, hne, not_false_iff, if_true]
  have h := pollAux_until fetch cs (max intervalArg 0).toNat hne hf k 0 0 fuel
    (by simpa using hlt) (by simpa using hdone) hfuel
  simpa using h

/-- Witness for `C7_poll_until_completed`: the first fetch is in progress,
the second completed; the loop does exactly two cycles. -/
theorem C7_poll_until_completed_witness :
    runPoller
      (fun j => some (if j = 0 then inProgressCampaign else completedCampaign))
      5 0 2 = .done 2 1 :=
  C7_poll_until_completed
    (fun j => some (if j = 0 then inProgressCampaign else completedCampaign))
    (fun j => if j = 0 then inProgressCampaign else completedCampaign)
    5 1 2 (by decide) (fun _ => rfl) (by decide) (by decide) (by decide)

/-- C8: a failed fetch aborts the poller at once: the iteration whose fetch
fails contributes no further cycle, sleep, report or export (the outcome
records exactly the cycles and sleeps already completed) and the error is
surfaced as exit code 1; in until-completed mode, if the first `k` fetches
succeed without a "Completed" status and fetch `k` fails, the loop ends with
`fetchError k k` and there is no retry. -/
theorem C8_fetch_failure_aborts (fetch : ℕ → Option Campaign)
    (cs : ℕ → Campaign) (interval : ℕ) (remaining : ℤ)
    (i s fuel k : ℕ) (intervalArg : ℤ) :
    (fetch i = none →
      pollAux fetch interval remaining i s (fuel + 1) = .fetchError i s ∧
      (PollOutcome.fetchError i s).exitCode = some 1) ∧
    (0 < intervalArg →
     (∀ j, j < k → fetch j = some (cs j)) →
     (∀ j, j < k → (cs j).status ≠ some "Completed") →
     fetch k = none → k + 1 ≤ fuel →
     runPoller fetch intervalArg 0 fuel = .fetchError k k ∧
     (runPoller fetch intervalArg 0 fuel).exitCode = some 1) := by
  constructor
  · intro hfail
    exact ⟨by simp [pollAux, hfail], rfl⟩
  · intro hpos hok hlt hfail hfuel
    have hne := runPoller_interval_toNat_ne intervalArg hpos
    have hmain : runPoller fetch intervalArg 0 fuel = .fetchError k k := by
      unfold runPoller
      simp only [ne_eq, hne, not_false_iff, if_true]
      have h := pollAux_fail_reach fetch cs (max intervalArg 0).toNat hne k 0 0 fuel
        (by simpa using hok) (by simpa using hlt) (by simpa using hfail) hfuel
      simpa using h
    exact ⟨hmain, by rw [hmain]; rfl⟩

/-- Witness for `C8_fetch_failure_aborts`: a stream whose second fetch fails;
the one-step abort and the run-level abort both yield `fetchError` with exit
code 1. -/
theorem C8_fetch_failure_aborts_witness :
    pollAux (fun j => if j = 0 then some inProgressCampaign else none)
      5 0 1 1 (2 + 1) = .fetchError 1 1 ∧
    runPoller (fun j => if j = 0 then some inProgressCampaign else none)
      5 0 2 = .fetchError 1 1 := by
  have h := C8_fetch_failure_aborts
    (fun j => if j = 0 then some inProgressCampaign else none)
    (fun _ => inProgressCampaign) 5 0 1 1 2 1 5
  exact ⟨(h.1 rfl).1,
    (h.2 (by decide) (by decide) (by decide) rfl (by decide)).1⟩

theorem parseQuoted_escape (f : List Char) :
    ∀ (acc rest : List Char), rest.head? ≠ some '"' →
      parseQuoted acc (escapeQuotes f ++ '"' :: rest) = (acc.reverse ++ f, rest) := by
  induction f with
  | nil =>
    intro acc rest hrest
    simp only [escapeQuotes, List.nil_append]
    cases rest with
    | nil => simp [parseQuoted]
    | cons c cs =>
      have hc : c ≠ '"' := by simpa using hrest
      simp [parseQuoted, hc]
  | cons c f' ih =>
    intro acc rest hrest
    by_cases hc : c = '"'
    · subst hc
      have hesc : escapeQuotes ('"' :: f') = '"' :: '"' :: escapeQuotes f' := by
        simp [escapeQuotes]
      rw [hesc, List.cons_append, List.cons_append]
      have hstep : parseQuoted acc ('"' :: '"' :: (escapeQuotes f' ++ '"' :: rest)) =
          parseQuoted ('"' :: acc) (escapeQuotes f' ++ '"' :: rest) := by
        simp [parseQuoted]
      rw [hstep, ih ('"' :: acc) rest hrest]
      simp
    · have hesc : escapeQuotes (c :: f') = c :: escapeQuotes f' := by
        simp [escapeQuotes, hc]
      rw [hesc, List.cons_append]
      cases hE : escapeQuotes f' ++ '"' :: rest with
      | nil => exact absurd hE (by simp)
      | cons y ys =>
        have hstep : parseQuoted acc (c :: y :: ys) =
            parseQuoted (c :: acc) (y :: ys) := by
          simp [parseQuoted, hc]
        rw [hstep, ← hE, ih (c :: acc) rest hrest]
        simp

theorem parseUnquoted_no_special (f : List Char) :
    ∀ (acc : List Char) (d : Char) (rest : List Char),
      (∀ c ∈ f, csvSpecial c = false) → stopChar d = true →
      parseUnquoted acc (f ++ d :: rest) = (acc.reverse ++ f, d :: rest) := by
  induction f with
  | nil =>
    intro acc d rest _ hd
    simp [parseUnquoted, hd]
  | cons c f' ih =>
    intro acc d rest hf hd
    have hc : csvSpecial c = false := hf c (by simp)
    have hstop : stopChar c = false := by
      simp only [csvSpecial, Bool.or_eq_false_iff, decide_eq_false_iff_not] at hc
      simp [stopChar, hc.1.1.1, hc.1.2, hc.2]
    have hstep : parseUnquoted acc ((c :: f') ++ d :: rest) =
        parseUnquoted (c :: acc) (f' ++ d :: rest) := by
      simp [parseUnquoted, hstop]
    rw [hstep, ih (c :: acc) d rest (fun x hx => hf x (by simp [hx])) hd]
    simp

theorem parseField_encode (f : List Char) (d : Char) (rest : List Char)
    (hd : d = ',' ∨ d = '\r') :
    parseField (encodeField f ++ d :: rest) = (f, d :: rest) := by
  have hdstop : stopChar d = true := by
    rcases hd with h | h <;> simp [h, stopChar]
  have hdq : d ≠ '"' := by rcases hd with h | h <;> simp [h]
  by_cases hq : needsQuote f
  · simp only [encodeField, if_pos hq]
    have hshape : ('"' :: (escapeQuotes f ++ ['"'])) ++ d :: rest =
        '"' :: (escapeQuotes f ++ '"' :: d :: rest) := by simp
    rw [hshape]
    simp only [parseField, if_pos rfl]
    rw [parseQuoted_escape f [] (d :: rest) (by simp [hdq])]
    simp
  · simp only [encodeField, if_neg hq]
    have hf : ∀ c ∈ f, csvSpecial c = false := by
      simpa [needsQuote] using hq
    cases f with
    | nil =>
      simp only [List.nil_append, parseField, if_neg hdq]
      simp [parseUnquoted, hdstop]
    | cons c f'' =>
      have hcq : c ≠ '"' := by
        have h := hf c (by simp)
        simp only [csvSpecial, Bool.or_eq_false_iff, decide_eq_false_iff_not] at h
        exact h.1.1.2
      simp only [List.cons_append, parseField, if_neg hcq]
      have := parseUnquoted_no_special (c :: f'') [] d rest hf hdstop
      rw [show c :: (f'' ++ d :: rest) = (c :: f'') ++ d :: rest from rfl, this]
      simp

theorem encodeRecord_length (r : List (List Char)) :
    r.length ≤ (encodeRecord r).length + 1 := by
  induction r with
  | nil => simp [encodeRecord]
  | cons f fs ih =>
    cases fs with
    | nil => simp [encodeRecord]
    | cons f2 fs' =>
      have hrw : encodeRecord (f :: f2 :: fs') =
          encodeField f ++ ',' :: encodeRecord (f2 :: fs') := rfl
      rw [hrw]
      simp only [List.length_append, List.length_cons]
      simp only [List.length_cons] at ih
      omega

theorem parseRecordAux_encode :
    ∀ (r : List (List Char)) (fuel : ℕ) (rest : List Char),
      r ≠ [] → r.length ≤ fuel →
      parseRecordAux fuel (encodeRecord r ++ '\r' :: '\n' :: rest) = (r, rest) := by
  intro r
  induction r with
  | nil => intro fuel rest h _; exact absurd rfl h
  | cons f fs ih =>
    intro fuel rest _ hfuel
    simp only [List.length_cons] at hfuel
    obtain ⟨fuel', rfl⟩ : ∃ g, fuel = g + 1 := ⟨fuel - 1, by omega⟩
    cases fs with
    | nil =>
      simp only [encodeRecord, parseRecordAux]
      rw [parseField_encode f '\r' ('\n' :: rest) (Or.inr rfl)]
      rfl
    | cons f2 fs' =>
      simp only [encodeRecord, parseRecordAux]
      have hshape : (encodeField f ++ ',' :: encodeRecord (f2 :: fs')) ++
          '\r' :: '\n' :: rest =
          encodeField f ++ ',' :: (encodeRecord (f2 :: fs') ++ '\r' :: '\n' :: rest) := by
        simp
      rw [hshape, parseField_encode f ',' _ (Or.inl rfl)]
      have hrec := ih fuel' rest (by simp) (by
        simp only [List.length_cons] at hfuel ⊢
        omega)
      simp [hrec]

theorem encodeCsv_ge_length (records : List (List (List Char))) :
    records.length ≤ (encodeCsv records).length := by
  induction records with
  | nil => simp [encodeCsv]
  | cons r rs ih =>
    have hrw : encodeCsv (r :: rs) = (encodeRecord r ++ ['\r', '\n']) ++ encodeCsv rs := by
      simp [encodeCsv]
    rw [hrw]
    simp only [List.length_append, List.length_cons]
    omega

theorem encodeCsv_cons (r : List (List Char)) (rs : List (List (List Char))) :
    encodeCsv (r :: rs) = encodeRecord r ++ '\r' :: '\n' :: encodeCsv rs := by
  simp [encodeCsv]

theorem parseCsvAux_encode :
    ∀ (records : List (List (List Char))) (fuel : ℕ),
      (∀ r ∈ records, r ≠ []) → records.length ≤ fuel →
      parseCsvAux fuel (encodeCsv records) = records := by
  intro records
  induction records with
  | nil =>
    intro fuel _ _
    cases fuel <;> simp [parseCsvAux, encodeCsv]
  | cons r rs ih =>
    intro fuel hne hfuel
    simp only [List.length_cons] at hfuel
    obtain ⟨fuel', rfl⟩ : ∃ g, fuel = g + 1 := ⟨fuel - 1, by omega⟩
    rw [encodeCsv_cons]
    have hinp : encodeRecord r ++ '\r' :: '\n' :: encodeCsv rs ≠ [] := by
      cases hE : encodeRecord r <;> simp [hE]
    simp only [parseCsvAux, if_neg hinp]
    have hflen : r.length ≤ (encodeRecord r ++ '\r' :: '\n' :: encodeCsv rs).length := by
      have h1 := encodeRecord_length r
      simp only [List.length_append, List.length_cons]
      omega
    rw [parseRecordAux_encode r _ (encodeCsv rs) (hne r (by simp)) hflen]
    rw [ih fuel' (fun x hx => hne x (by simp [hx])) (by omega)]

/-- C9: re-reading the CSV content written by `export_csv` for `N` rows
yields exactly one header record followed by the `N` data records with the
ten cells of each row in the fixed column order, string for string; the
content is a function of the rows alone (the file is overwritten, mode
`"w"`), and the header record is present even for zero rows. -/
theorem C9_csv_round_trip (rows : List RecipientRow) :
    parseCsv (export_csv rows) =
      (csvFieldnames :: rows.map rowCells).map (fun r => r.map String.toList) ∧
    (parseCsv (export_csv rows)).length = rows.length + 1 ∧
    (parseCsv (export_csv rows)).head? = some (csvFieldnames.map String.toList) ∧
    (parseCsv (export_csv rows)).all (fun r => r.length = 10) = true := by
  have hne : ∀ r ∈ (csvFieldnames :: rows.map rowCells).map
      (fun r => r.map String.toList), r ≠ [] := by
    intro r hr
    simp only [List.mem_map, List.mem_cons] at hr
    obtain ⟨cells, hcells, rfl⟩ := hr
    rcases hcells with rfl | ⟨row, _, rfl⟩
    · simp [csvFieldnames]
    · simp [rowCells]
  have hmain : parseCsv (export_csv rows) =
      (csvFieldnames :: rows.map rowCells).map (fun r => r.map String.toList) := by
    unfold parseCsv export_csv
    exact parseCsvAux_encode _ _ hne (encodeCsv_ge_length _)
  refine ⟨hmain, ?_, ?_, ?_⟩
  · rw [hmain]; simp
  · rw [hmain]; simp
  · rw [hmain]
    apply List.all_eq_true.mpr
    intro r hr
    simp only [List.mem_map, List.mem_cons] at hr
    obtain ⟨cells, hcells, rfl⟩ := hr
    rcases hcells with rfl | ⟨row, _, rfl⟩
    · simp [csvFieldnames]
    · simp [rowCells]

/-- C10: `create_campaign` is reached only when the safety gate passed in
full — not report-only, neither dry-run flag set, `allow_live_send` true and
the exact confirmation phrase given; any report-only or dry-run condition
prevents reaching it, and with the gate otherwise open a false
`allow_live_send` or a wrong phrase fails the run at the safety check,
before any campaign-creating call. -/
theorem C10_safety_gate (config : AppConfig) (args : Args) (payloadOk : Bool) :
    (cliFlow config args payloadOk = .createCampaign →
      args.report_only = false ∧ args.dry_run = false ∧ config.dry_run = false ∧
      config.allow_live_send = true ∧ args.confirm = CONFIRM_PHRASE) ∧
    (args.report_only = true ∨ args.dry_run = true ∨ config.dry_run = true →
      cliFlow config args payloadOk ≠ .createCampaign) ∧
    (args.report_only = false → args.dry_run = false → config.dry_run = false →
     config.allow_live_send = false ∨ args.confirm ≠ CONFIRM_PHRASE →
      cliFlow config args payloadOk = .safetyFail) := by
  obtain ⟨adry, arep, aid, aconf⟩ := args
  obtain ⟨clive, cdry⟩ := config
  by_cases hconf : aconf = CONFIRM_PHRASE <;>
    cases adry <;> cases arep <;> cases cdry <;> cases clive <;> cases payloadOk <;>
      simp [cliFlow, enforce_safety, hconf] <;>
        cases hid : idTruthy aid <;> simp [hid]

/-- Witness for `C10_safety_gate`: with a clean non-dry, non-report run where
`allow_live_send` is false, the flow stops at the safety check. -/
theorem C10_safety_gate_witness :
    cliFlow { allow_live_send := false, dry_run := false }
      { dry_run := false, report_only := false, campaign_id := none,
        confirm := CONFIRM_PHRASE } true = .safetyFail :=
  (C10_safety_gate { allow_live_send := false, dry_run := false }
      { dry_run := false, report_only := false, campaign_id := none,
        confirm := CONFIRM_PHRASE } true).2.2 rfl rfl rfl (Or.inl rfl)

end PhishSim
